import Mathlib

/-!
Shallow embedding of `src/dgr.c` (DGR: a master process broadcasts named binary
variables to slave processes over UDP).

Modelling conventions:
* A byte is a `Nat`; bytes produced by the code are `< 256`.
* The C record list `dgr_list` together with `dgr_list_size` is a `List dgr_record`.
* Machine `int` values are modelled as `Nat`/`Int` with explicit bounds where the
  4-byte width matters (the wire size field).
* The wire `int` is written in a fixed byte order (the code uses host-native order
  on both sides; the model fixes little-endian, which is faithful to any single
  host since serializer and deserializer agree by construction).
* `exit(1)` calls and out-of-bounds memory accesses (undefined behavior) are made
  explicit as error results; each error constructor documents which C behavior it
  marks.  In particular `readPastEnd` marks a read past the end of the input
  buffer (the C code performs that read without any bound check).
-/

set_option linter.unusedVariables false

/-- One tracked variable (C `struct dgr_record`).  `name` is the C string stored in
the 1024-byte `name` field: a list of nonzero bytes (at most 1023 of them fit,
followed by the 0 terminator).  `buffer` holds the variable's data bytes.  The C
field `size` always equals the number of bytes in `buffer` (every write path sets
`size` and then copies exactly `size` bytes), so it is represented as
`dgr_record.size` below rather than as a separate field. -/
structure dgr_record where
  name : List Nat
  buffer : List Nat
deriving DecidableEq

/-- The C `size` field of a record: number of bytes of data in the variable. -/
def dgr_record.size (r : dgr_record) : Nat := r.buffer.length

/-- Maximum number of records DGR can handle (C macro `DGR_MAX_LIST_SIZE`). -/
def DGR_MAX_LIST_SIZE : Nat := 1024

/-- C `dgr_findIndex`: index of the first record whose name compares equal
(`strcmp == 0`) to `name`; `none` models the C return value `-1`. -/
def dgr_findIndex (name : List Nat) : List dgr_record → Option Nat
  | [] => none
  | r :: rs =>
    if r.name = name then some 0
    else (dgr_findIndex name rs).map (fun i => i + 1)

/-- Reading `dgr_list[i]` after `dgr_findIndex` returned `i` (the composition used
by `dgr_get` and `dgr_set`). -/
def dgr_lookup (name : List Nat) (reg : List dgr_record) : Option dgr_record :=
  match dgr_findIndex name reg with
  | none => none
  | some i => reg[i]?

/-- Explicit markers for the C code's `exit(1)` calls and undefined behavior. -/
inductive DgrErr where
  /-- `dgr_set` printed "exceeded the maximum list size" and called `exit(1)`. -/
  | capacityExit
  /-- `dgr_set` wrote through `&dgr_list[dgr_list_size]` with
  `dgr_list_size ≥ DGR_MAX_LIST_SIZE`: a write one past the end of the
  1024-entry array (undefined behavior). -/
  | recordSlotOOB
  /-- a name of 1024 bytes or more was written into a 1024-byte `name` field
  (the terminator lands out of bounds; undefined behavior). -/
  | nameFieldOOB
  /-- `dgr_unserialize` read bytes past the end of the input buffer: the name
  scan ran past the end, or fewer than 4 bytes remained for the size field, or
  the size field exceeded the remaining bytes and the unchecked `memcpy` read
  out of bounds. -/
  | readPastEnd
  /-- the 4 wire bytes decode to a negative `int`; `char data[size]` with a
  negative length is undefined behavior. -/
  | negativeSize
  /-- `dgr_receive` printed "Did the master or relay die?" and called `exit(1)`
  (liveness window elapsed since the last received packet). -/
  | livenessExit
  /-- `dgr_receive` timed out waiting for a first packet with `timeout > 0` and
  called `exit(1)`. -/
  | timeoutExit
deriving DecidableEq

/-- Result of C `dgr_get` (which returns `-3`, `-1`, `-2`, or the copied size).
Each constructor carries the caller's buffer after the call so that claims can
state when the buffer is and is not modified. -/
inductive GetResult where
  /-- return value `-3`: DGR is not enabled; buffer untouched. -/
  | notEnabled (buffer : List Nat)
  /-- return value `-1`: name unknown; buffer untouched. -/
  | notFound (buffer : List Nat)
  /-- return value `-2`: caller's buffer smaller than the record; buffer untouched. -/
  | bufferTooSmall (buffer : List Nat)
  /-- the record's `size` bytes were copied into the front of the buffer and
  `size` is returned; bytes past `size` keep their old values. -/
  | ok (size : Nat) (buffer : List Nat)
deriving DecidableEq

/-- C `dgr_get(name, buffer, bufferSize)`.  The buffer is its list of bytes
(`bufferSize` is its length).  `dgr_get` performs no write to `dgr_list`, which
the embedding reflects by not producing a registry: the registry is unchanged by
construction. -/
def dgr_get (disabled : Bool) (reg : List dgr_record) (name buf : List Nat) :
    GetResult :=
  if disabled then .notEnabled buf
  else
    match dgr_findIndex name reg with
    | none => .notFound buf
    | some i =>
      match reg[i]? with
      | none => .notFound buf
      | some r =>
        if r.buffer.length ≤ buf.length then
          .ok r.buffer.length (r.buffer ++ buf.drop r.buffer.length)
        else
          .bufferTooSmall buf

/-- Result of C `dgr_set`: the updated record list, or one of the `dgr_set`
failure markers (see `DgrErr` for the meaning of each). -/
inductive SetResult where
  | ok (list : List dgr_record)
  | capacityExit
  | recordSlotOOB
  | nameFieldOOB
deriving DecidableEq

/-- C `dgr_set(name, buffer, size)`.  If the name is unknown the code first tests
`dgr_list_size > DGR_MAX_LIST_SIZE` (note: strictly greater, exactly as in the
source) and exits on failure, then writes through `&dgr_list[dgr_list_size]` —
an out-of-bounds slot when `dgr_list_size = DGR_MAX_LIST_SIZE` — copying the
name with `sprintf` (out of bounds when the name needs more than 1024 bytes
including its terminator) and the data.  If the name is known, the record's
buffer is replaced by the new bytes (the C code frees and reallocates when the
size changed, then `memcpy`s; both branches end with the record holding exactly
the new bytes, and the record's name is untouched and equal to `name`). -/
def dgr_set (disabled : Bool) (reg : List dgr_record) (name buf : List Nat) :
    SetResult :=
  if disabled then .ok reg
  else
    match dgr_findIndex name reg with
    | none =>
      if DGR_MAX_LIST_SIZE < reg.length then .capacityExit
      else if reg.length < DGR_MAX_LIST_SIZE then
        if 1024 ≤ name.length then .nameFieldOOB
        else .ok (reg ++ [⟨name, buf⟩])
      else .recordSlotOOB
    | some i => .ok (reg.set i ⟨name, buf⟩)

/-- Little-endian bytes of a 4-byte integer, as written by
`memcpy(ptr, &size, sizeof(int))` in `dgr_serialize`. -/
def dgr_int_to_bytes (n : Nat) : List Nat :=
  [n % 256, n / 256 % 256, n / 65536 % 256, n / 16777216 % 256]

/-- Value of the first 4 bytes read by `memcpy(&size, ptr, sizeof(int))` in
`dgr_unserialize`, as a natural number below `2 ^ 32`. -/
def dgr_bytes_to_nat : List Nat → Nat
  | b0 :: b1 :: b2 :: b3 :: _ => b0 + 256 * b1 + 65536 * b2 + 16777216 * b3
  | _ => 0

/-- C `dgr_serialize`: for each record in list order, the name's bytes, one 0x00
terminator, the 4 bytes of the `size` field, then the `size` data bytes. -/
def dgr_serialize : List dgr_record → List Nat
  | [] => []
  | r :: rs =>
    r.name ++ [0] ++ dgr_int_to_bytes r.buffer.length ++ r.buffer ++ dgr_serialize rs

/-- Loop body of C `dgr_unserialize`, with the record list threaded through.
Each iteration scans name bytes up to a 0 terminator, reads a 4-byte size, reads
that many data bytes, and applies `dgr_set`; it stops when the cursor reaches the
end of the input.  `dgr_set` is applied with the disabled flag false:
`dgr_unserialize` is only reached from `dgr_receive` after its disabled check.  The C code checks none of its reads against the end of the
input; every such overrun is surfaced as an explicit error (see `DgrErr`).  Note
in particular that a size field larger than the remaining bytes makes the code
`memcpy` from past the end of the buffer: that is the `readPastEnd` branch after
the size has been read. -/
def dgr_unserialize_go (reg : List dgr_record) (input : List Nat) :
    Except DgrErr (List dgr_record) :=
  if input.isEmpty then .ok reg
  else
    let nm := input.takeWhile (fun b => b != 0)
    let rest0 := input.dropWhile (fun b => b != 0)
    if hterm : rest0.isEmpty then .error .readPastEnd
    else
      let rest := rest0.tail
      if 1024 ≤ nm.length then .error .nameFieldOOB
      else if rest.length < 4 then .error .readPastEnd
      else
        let v := dgr_bytes_to_nat (rest.take 4)
        if 2 ^ 31 ≤ v then .error .negativeSize
        else if (rest.drop 4).length < v then .error .readPastEnd
        else
          match dgr_set false reg nm ((rest.drop 4).take v) with
          | .ok reg2 => dgr_unserialize_go reg2 ((rest.drop 4).drop v)
          | .capacityExit => .error .capacityExit
          | .recordSlotOOB => .error .recordSlotOOB
          | .nameFieldOOB => .error .nameFieldOOB
termination_by input.length
decreasing_by
  simp only [rest, rest0, v, List.length_drop, List.length_tail]
  have h1 : (List.dropWhile (fun b => b != 0) input).length ≤ input.length :=
    List.Sublist.length_le (List.dropWhile_sublist (fun b => b != 0))
  have h2 : List.dropWhile (fun b => b != 0) input ≠ [] :=
    fun h => hterm (by simp [rest0, h])
  have h3 : 0 < (List.dropWhile (fun b => b != 0) input).length :=
    List.length_pos.mpr h2
  omega

/-- C `dgr_unserialize(size, serialized)`: run the parse-and-set loop over the
`size` bytes of `serialized` (the byte list carries its own length). -/
def dgr_unserialize (serialized : List Nat) (reg : List dgr_record) :
    Except DgrErr (List dgr_record) :=
  dgr_unserialize_go reg serialized

/-- The sequence of record names a packet parses into, following exactly the
cursor movement of `dgr_unserialize` (used to state which registry entries a
packet cannot touch). -/
def dgr_packet_names (input : List Nat) : List (List Nat) :=
  if input.isEmpty then []
  else
    let nm := input.takeWhile (fun b => b != 0)
    let rest0 := input.dropWhile (fun b => b != 0)
    if hterm : rest0.isEmpty then [nm]
    else
      let rest := rest0.tail
      if rest.length < 4 then [nm]
      else
        nm :: dgr_packet_names ((rest.drop 4).drop (dgr_bytes_to_nat (rest.take 4)))
termination_by input.length
decreasing_by
  simp only [rest, rest0, List.length_drop, List.length_tail]
  have h1 : (List.dropWhile (fun b => b != 0) input).length ≤ input.length :=
    List.Sublist.length_le (List.dropWhile_sublist (fun b => b != 0))
  have h2 : List.dropWhile (fun b => b != 0) input ≠ [] :=
    fun h => hterm (by simp [rest0, h])
  have h3 : 0 < (List.dropWhile (fun b => b != 0) input).length :=
    List.length_pos.mpr h2
  omega

/-- The DGR globals that make up one session's state: the record list
(`dgr_list`/`dgr_list_size`), the time of the last received packet
(`dgr_time_lastreceive`, 0 meaning "never"), the role flag (`dgr_mode`, true for
master) and the disabled flag (`dgr_disabled`). -/
structure DgrState where
  dgr_list : List dgr_record
  dgr_time_lastreceive : Int
  dgr_mode : Bool
  dgr_disabled : Bool
deriving DecidableEq

/-- The state of the C globals before `dgr_init` runs: static initializers give
`dgr_mode = 0` (slave) and `dgr_disabled = 0` (enabled), an empty list, and
`dgr_time_lastreceive = 0`. -/
def dgr_initial_state : DgrState :=
  { dgr_list := []
    dgr_time_lastreceive := 0
    dgr_mode := false
    dgr_disabled := false }

/-- C `dgr_is_master`: returns the `dgr_mode` flag. -/
def dgr_is_master (st : DgrState) : Bool := st.dgr_mode

/-- C `dgr_is_enabled`: 0 when `dgr_disabled` is set, 1 otherwise. -/
def dgr_is_enabled (st : DgrState) : Bool := if st.dgr_disabled then false else true

/-- C `dgr_receive(timeout)`.  `now` is the value `time(NULL)` returns during the
call; `queue` is the list of datagrams pending on the socket in arrival order
(for `timeout > 0`, all datagrams that arrive within the wait; `poll` reports
readable exactly when it is nonempty).  The code: returns untouched if disabled;
exits if a packet was ever received and at least 15 seconds have passed since;
polls — on empty queue it exits when `timeout > 0` and otherwise returns with
nothing changed; else it reads packets until the socket is drained so that only
the most recently received one is kept, stamps `dgr_time_lastreceive`, and
unserializes that newest packet into the list.  `poll`/`recvfrom` system-call
failures (also fatal in C) are outside the model. -/
def dgr_receive (st : DgrState) (timeout : Int) (now : Int)
    (queue : List (List Nat)) : Except DgrErr DgrState :=
  if st.dgr_disabled then .ok st
  else if st.dgr_time_lastreceive ≠ 0 ∧ 15 ≤ now - st.dgr_time_lastreceive then
    .error .livenessExit
  else
    match queue.getLast? with
    | none => if 0 < timeout then .error .timeoutExit else .ok st
    | some pkt =>
      match dgr_unserialize pkt st.dgr_list with
      | .error e => .error e
      | .ok reg2 => .ok { st with dgr_list := reg2, dgr_time_lastreceive := now }

/-- C `dgr_update`: master sends, slave receives; a slave that has never received
a packet waits up to 10000 ms (the initial grace period), any other slave drains
without blocking.  The master branch (`dgr_send`) serializes `dgr_list` and
transmits it on the socket; the transmitted bytes and the socket are outside the
modelled state and the send leaves every modelled global unchanged, so the
branch returns the state as is (its `sendto` failure exits are outside the
model). -/
def dgr_update (st : DgrState) (now : Int) (queue : List (List Nat)) :
    Except DgrErr DgrState :=
  if st.dgr_mode then .ok st
  else if st.dgr_time_lastreceive = 0 then dgr_receive st 10000 now queue
  else dgr_receive st 0 now queue

/-- The registry of the spec's concrete example: the single record named
"score" (the bytes of the ASCII characters `s c o r e`) holding the 4 bytes of
the native-endian `int` 10. -/
def dgr_score_reg : List dgr_record := [⟨[115, 99, 111, 114, 101], [10, 0, 0, 0]⟩]

/-! Helper lemmas about the scanning and byte-conversion primitives. -/

theorem dgr_takeWhile_name (nm rest : List Nat) (h : ∀ b ∈ nm, b ≠ 0) :
    (nm ++ 0 :: rest).takeWhile (fun b => b != 0) = nm := by
  induction nm with
  | nil => simp [List.takeWhile_cons]
  | cons b tl ih =>
    have hb : b ≠ 0 := h b (by simp)
    simp [List.takeWhile_cons, hb, ih (fun x hx => h x (by simp [hx]))]

theorem dgr_dropWhile_name (nm rest : List Nat) (h : ∀ b ∈ nm, b ≠ 0) :
    (nm ++ 0 :: rest).dropWhile (fun b => b != 0) = 0 :: rest := by
  induction nm with
  | nil => simp [List.dropWhile_cons]
  | cons b tl ih =>
    have hb : b ≠ 0 := h b (by simp)
    simp only [List.cons_append, List.dropWhile_cons]
    rw [if_pos (by simp [hb])]
    exact ih (fun x hx => h x (by simp [hx]))

theorem dgr_int_to_bytes_length (n : Nat) : (dgr_int_to_bytes n).length = 4 := rfl

theorem dgr_bytes_to_nat_int_to_bytes (n : Nat) (h : n < 2 ^ 32) :
    dgr_bytes_to_nat (dgr_int_to_bytes n) = n := by
  simp only [dgr_int_to_bytes, dgr_bytes_to_nat]
  omega

theorem dgr_findIndex_eq_none (name : List Nat) (reg : List dgr_record)
    (h : ∀ r ∈ reg, r.name ≠ name) : dgr_findIndex name reg = none := by
  induction reg with
  | nil => rfl
  | cons r rs ih =>
    simp only [dgr_findIndex]
    rw [if_neg (h r (by simp))]
    simp [ih (fun x hx => h x (by simp [hx]))]

theorem dgr_findIndex_getElem (name : List Nat) (reg : List dgr_record) (i : Nat)
    (h : dgr_findIndex name reg = some i) :
    ∃ r, reg[i]? = some r ∧ r.name = name := by
  induction reg generalizing i with
  | nil => simp [dgr_findIndex] at h
  | cons r rs ih =>
    simp only [dgr_findIndex] at h
    by_cases hr : r.name = name
    · rw [if_pos hr] at h
      cases h
      exact ⟨r, by simp, hr⟩
    · rw [if_neg hr] at h
      cases hfi : dgr_findIndex name rs with
      | none => rw [hfi] at h; simp at h
      | some j =>
        rw [hfi] at h
        simp only [Option.map_some', Option.some.injEq] at h
        obtain ⟨rr, hrr, hname⟩ := ih j hfi
        exact ⟨rr, by simp [← h, hrr], hname⟩

theorem dgr_unserialize_go_step (reg : List dgr_record) (nm data tail : List Nat)
    (h0 : ∀ b ∈ nm, b ≠ 0) (hlen : nm.length ≤ 1023) (hsz : data.length < 2 ^ 31) :
    dgr_unserialize_go reg (nm ++ 0 :: (dgr_int_to_bytes data.length ++ (data ++ tail)))
      = match dgr_set false reg nm data with
        | .ok reg2 => dgr_unserialize_go reg2 tail
        | .capacityExit => .error .capacityExit
        | .recordSlotOOB => .error .recordSlotOOB
        | .nameFieldOOB => .error .nameFieldOOB := by
  have hXtake : (dgr_int_to_bytes data.length ++ (data ++ tail)).take 4
      = dgr_int_to_bytes data.length := List.take_left' (dgr_int_to_bytes_length _)
  have hXdrop : (dgr_int_to_bytes data.length ++ (data ++ tail)).drop 4
      = data ++ tail := List.drop_left' (dgr_int_to_bytes_length _)
  have h1 : ¬ (1024 ≤ nm.length) := by omega
  have h2 : ¬ ((dgr_int_to_bytes data.length ++ (data ++ tail)).length < 4) := by
    simp only [List.length_append, dgr_int_to_bytes_length]
    omega
  have h3 : dgr_bytes_to_nat (dgr_int_to_bytes data.length) = data.length :=
    dgr_bytes_to_nat_int_to_bytes _ (by omega)
  have h4 : ¬ (2 ^ 31 ≤ data.length) := by omega
  have h5 : ¬ ((data ++ tail).length < data.length) := by
    simp only [List.length_append]
    omega
  rw [dgr_unserialize_go]
  rw [dgr_takeWhile_name _ _ h0, dgr_dropWhile_name _ _ h0]
  simp only [List.isEmpty_cons, List.isEmpty_eq_true, List.append_eq_nil,
    List.cons_ne_nil, and_false, Bool.false_eq_true, if_false, List.tail_cons,
    hXtake, hXdrop, h1, h2, h3, h4, h5, List.take_left, List.drop_left,
    dite_false, if_false]

theorem dgr_packet_names_step (nm data tail : List Nat)
    (h0 : ∀ b ∈ nm, b ≠ 0) (hsz : data.length < 2 ^ 31) :
    dgr_packet_names (nm ++ 0 :: (dgr_int_to_bytes data.length ++ (data ++ tail)))
      = nm :: dgr_packet_names tail := by
  have hXtake : (dgr_int_to_bytes data.length ++ (data ++ tail)).take 4
      = dgr_int_to_bytes data.length := List.take_left' (dgr_int_to_bytes_length _)
  have hXdrop : (dgr_int_to_bytes data.length ++ (data ++ tail)).drop 4
      = data ++ tail := List.drop_left' (dgr_int_to_bytes_length _)
  have h2 : ¬ ((dgr_int_to_bytes data.length ++ (data ++ tail)).length < 4) := by
    simp only [List.length_append, dgr_int_to_bytes_length]
    omega
  have h3 : dgr_bytes_to_nat (dgr_int_to_bytes data.length) = data.length :=
    dgr_bytes_to_nat_int_to_bytes _ (by omega)
  rw [dgr_packet_names]
  rw [dgr_takeWhile_name _ _ h0, dgr_dropWhile_name _ _ h0]
  simp only [List.isEmpty_cons, List.isEmpty_eq_true, List.append_eq_nil,
    List.cons_ne_nil, and_false, Bool.false_eq_true, if_false, List.tail_cons,
    hXtake, hXdrop, h2, h3, List.drop_left, dite_false]

theorem dgr_unserialize_go_serialize (reg : List dgr_record) :
    ∀ acc : List dgr_record,
    (∀ r ∈ reg, (∀ b ∈ r.name, b ≠ 0) ∧ r.name.length ≤ 1023 ∧ r.buffer.length < 2 ^ 31) →
    (∀ r ∈ reg, ∀ a ∈ acc, a.name ≠ r.name) →
    (reg.map (fun r => r.name)).Nodup →
    acc.length + reg.length ≤ DGR_MAX_LIST_SIZE →
    dgr_unserialize_go acc (dgr_serialize reg) = .ok (acc ++ reg) := by
  induction reg with
  | nil =>
    intro acc _ _ _ _
    simp [dgr_serialize, dgr_unserialize_go]
  | cons r rs ih =>
    intro acc hwf hfresh hnodup hcap
    have hname0 : ∀ b ∈ r.name, b ≠ 0 := (hwf r (by simp)).1
    have hnamelen : r.name.length ≤ 1023 := (hwf r (by simp)).2.1
    have hsize : r.buffer.length < 2 ^ 31 := (hwf r (by simp)).2.2
    have hfind : dgr_findIndex r.name acc = none :=
      dgr_findIndex_eq_none _ _ (fun a ha => hfresh r (by simp) a ha)
    have hser : dgr_serialize (r :: rs)
        = r.name ++ 0 :: (dgr_int_to_bytes r.buffer.length ++ (r.buffer ++ dgr_serialize rs)) := by
      simp [dgr_serialize]
    have hc1 : ¬ (DGR_MAX_LIST_SIZE < acc.length) := by
      simp only [List.length_cons] at hcap
      omega
    have hc2 : acc.length < DGR_MAX_LIST_SIZE := by
      simp only [List.length_cons] at hcap
      simp only [DGR_MAX_LIST_SIZE] at hcap ⊢
      omega
    have h1024 : ¬ (1024 ≤ r.name.length) := by omega
    have hset : dgr_set false acc r.name r.buffer = .ok (acc ++ [r]) := by
      simp only [dgr_set, Bool.false_eq_true, if_false, hfind, hc1, hc2, h1024,
        if_true, if_false]
    rw [hser, dgr_unserialize_go_step acc r.name r.buffer _ hname0 hnamelen hsize, hset]
    have hfresh' : ∀ x ∈ rs, ∀ a ∈ acc ++ [r], a.name ≠ x.name := by
      intro x hx a ha
      rcases List.mem_append.mp ha with hacc | hr
      · exact hfresh x (by simp [hx]) a hacc
      · have hrn : r.name ∉ rs.map (fun q => q.name) := by
          have := hnodup
          simp only [List.map_cons, List.nodup_cons] at this
          exact this.1
        have : a = r := by simpa using hr
        subst this
        intro hcon
        exact hrn (by rw [hcon]; exact List.mem_map_of_mem _ hx)
    have hnodup' : (rs.map (fun q => q.name)).Nodup := by
      have := hnodup
      simp only [List.map_cons, List.nodup_cons] at this
      exact this.2
    have hcap' : (acc ++ [r]).length + rs.length ≤ DGR_MAX_LIST_SIZE := by
      simp only [List.length_append, List.length_cons, List.length_nil] at hcap ⊢
      omega
    show dgr_unserialize_go (acc ++ [r]) (dgr_serialize rs) = Except.ok (acc ++ r :: rs)
    rw [ih (acc ++ [r]) (fun x hx => hwf x (by simp [hx])) hfresh' hnodup' hcap']
    simp

theorem dgr_packet_names_serialize (reg : List dgr_record)
    (hwf : ∀ r ∈ reg, (∀ b ∈ r.name, b ≠ 0) ∧ r.name.length ≤ 1023 ∧ r.buffer.length < 2 ^ 31) :
    dgr_packet_names (dgr_serialize reg) = reg.map (fun r => r.name) := by
  induction reg with
  | nil => simp [dgr_serialize, dgr_packet_names]
  | cons r rs ih =>
    have hser : dgr_serialize (r :: rs)
        = r.name ++ 0 :: (dgr_int_to_bytes r.buffer.length ++ (r.buffer ++ dgr_serialize rs)) := by
      simp [dgr_serialize]
    rw [hser, dgr_packet_names_step _ _ _ (hwf r (by simp)).1 (hwf r (by simp)).2.2]
    rw [ih (fun x hx => hwf x (by simp [hx]))]
    simp

theorem dgr_lookup_cons_ne (r : dgr_record) (rs : List dgr_record) (name : List Nat)
    (h : r.name ≠ name) : dgr_lookup name (r :: rs) = dgr_lookup name rs := by
  simp only [dgr_lookup, dgr_findIndex, h, if_false]
  cases hfi : dgr_findIndex name rs with
  | none => simp
  | some j => simp

theorem dgr_lookup_set (reg : List dgr_record) (i : Nat) (nm buf name' : List Nat)
    (hne : name' ≠ nm) (hrec : dgr_findIndex nm reg = some i) :
    dgr_lookup name' (reg.set i ⟨nm, buf⟩) = dgr_lookup name' reg := by
  induction reg generalizing i with
  | nil => simp [dgr_findIndex] at hrec
  | cons r rs ih =>
    simp only [dgr_findIndex] at hrec
    by_cases hr : r.name = nm
    · rw [if_pos hr] at hrec
      cases hrec
      rw [List.set_cons_zero]
      rw [dgr_lookup_cons_ne _ _ _ (fun hcon => hne hcon.symm)]
      rw [dgr_lookup_cons_ne _ _ _ (fun hcon => hne (hr ▸ hcon).symm)]
    · rw [if_neg hr] at hrec
      cases hfi : dgr_findIndex nm rs with
      | none => rw [hfi] at hrec; simp at hrec
      | some j =>
        rw [hfi] at hrec
        simp only [Option.map_some', Option.some.injEq] at hrec
        cases hrec
        rw [List.set_cons_succ]
        by_cases hr' : r.name = name'
        · simp [dgr_lookup, dgr_findIndex, hr']
        · rw [dgr_lookup_cons_ne _ _ _ hr', dgr_lookup_cons_ne _ _ _ hr']
          exact ih j hfi

theorem dgr_lookup_append_single (reg : List dgr_record) (x : dgr_record)
    (name' : List Nat) (hx : x.name ≠ name') :
    dgr_lookup name' (reg ++ [x]) = dgr_lookup name' reg := by
  induction reg with
  | nil =>
    rw [List.nil_append, dgr_lookup_cons_ne _ _ _ hx]
  | cons r rs ih =>
    by_cases hr : r.name = name'
    · simp [dgr_lookup, dgr_findIndex, hr]
    · rw [List.cons_append, dgr_lookup_cons_ne _ _ _ hr, dgr_lookup_cons_ne _ _ _ hr]
      exact ih

theorem dgr_set_frame (reg reg2 : List dgr_record) (nm buf name' : List Nat)
    (hok : dgr_set false reg nm buf = .ok reg2) (hne : name' ≠ nm) :
    dgr_lookup name' reg2 = dgr_lookup name' reg := by
  simp only [dgr_set, Bool.false_eq_true, if_false] at hok
  cases hfi : dgr_findIndex nm reg with
  | none =>
    rw [hfi] at hok
    split_ifs at hok with hA hB hC
    simp only [SetResult.ok.injEq] at hok
    subst hok
    exact dgr_lookup_append_single _ _ _ (fun hcon => hne hcon.symm)
  | some i =>
    rw [hfi] at hok
    cases hok
    exact dgr_lookup_set reg i nm buf name' hne hfi

theorem dgr_unserialize_go_frame (n : Nat) :
    ∀ (input : List Nat) (reg reg2 : List dgr_record) (name' : List Nat),
    input.length ≤ n →
    dgr_unserialize_go reg input = .ok reg2 →
    name' ∉ dgr_packet_names input →
    dgr_lookup name' reg2 = dgr_lookup name' reg := by
  induction n with
  | zero =>
    intro input reg reg2 name' hlen hok hnm
    have hinput : input = [] := List.length_eq_zero.mp (Nat.le_zero.mp hlen)
    subst hinput
    rw [dgr_unserialize_go] at hok
    simp only [List.isEmpty_nil, if_true] at hok
    cases hok
    rfl
  | succ n ihn =>
    intro input reg reg2 name' hlen hok hnm
    by_cases hemp : input.isEmpty
    · rw [dgr_unserialize_go] at hok
      rw [if_pos hemp] at hok
      cases hok
      rfl
    · rw [dgr_unserialize_go] at hok
      rw [dgr_packet_names] at hnm
      by_cases hterm : (input.dropWhile (fun b => b != 0)).isEmpty
      · simp only [hemp, hterm, Bool.false_eq_true, if_false, eq_self_iff_true,
          dite_true, not_false_eq_true] at hok
        exact Except.noConfusion hok
      · by_cases hname : 1024 ≤ (input.takeWhile (fun b => b != 0)).length
        · simp only [hemp, hterm, hname, Bool.false_eq_true, if_false, if_true,
            eq_self_iff_true, dite_false, not_false_eq_true, iff_true] at hok
          exact Except.noConfusion hok
        · by_cases h4 : ((input.dropWhile (fun b => b != 0)).tail).length < 4
          · simp only [hemp, hterm, hname, h4, Bool.false_eq_true, if_false, if_true,
              eq_self_iff_true, dite_false, not_false_eq_true, iff_true] at hok
            exact Except.noConfusion hok
          · by_cases hneg : 2 ^ 31 ≤
                dgr_bytes_to_nat (((input.dropWhile (fun b => b != 0)).tail).take 4)
            · simp only [hemp, hterm, hname, h4, hneg, Bool.false_eq_true, if_false,
                if_true, eq_self_iff_true, dite_false, not_false_eq_true, iff_true] at hok
              exact Except.noConfusion hok
            · by_cases hlenv : (((input.dropWhile (fun b => b != 0)).tail).drop 4).length <
                  dgr_bytes_to_nat (((input.dropWhile (fun b => b != 0)).tail).take 4)
              · simp only [hemp, hterm, hname, h4, hneg, hlenv, Bool.false_eq_true,
                  if_false, if_true, eq_self_iff_true, dite_false, not_false_eq_true,
                  iff_true] at hok
                exact Except.noConfusion hok
              · simp only [hemp, hterm, hname, h4, hneg, hlenv, Bool.false_eq_true,
                  if_false, if_true, eq_self_iff_true, dite_false, not_false_eq_true,
                  iff_true] at hok
                simp only [hemp, hterm, h4, Bool.false_eq_true, if_false, if_true,
                  eq_self_iff_true, dite_false, not_false_eq_true, iff_true,
                  List.mem_cons] at hnm
                push_neg at hnm
                have hs2 : input.dropWhile (fun b => b != 0) ≠ [] := by
                  intro hc
                  exact hterm (by simp [hc])
                have hs1 : (input.dropWhile (fun b => b != 0)).length ≤ input.length :=
                  List.Sublist.length_le (List.dropWhile_sublist (fun b => b != 0))
                have hs3 : 0 < (input.dropWhile (fun b => b != 0)).length :=
                  List.length_pos.mpr hs2
                have hlen' : ((((input.dropWhile (fun b => b != 0)).tail).drop 4).drop
                    (dgr_bytes_to_nat
                      (((input.dropWhile (fun b => b != 0)).tail).take 4))).length
                    ≤ n := by
                  simp only [List.length_drop, List.length_tail]
                  omega
                cases hset : dgr_set false reg (input.takeWhile (fun b => b != 0))
                    ((((input.dropWhile (fun b => b != 0)).tail).drop 4).take
                      (dgr_bytes_to_nat
                        (((input.dropWhile (fun b => b != 0)).tail).take 4))) with
                | ok reg' =>
                  rw [hset] at hok
                  have hstep : dgr_lookup name' reg2 = dgr_lookup name' reg' :=
                    ihn _ reg' reg2 name' hlen' hok hnm.2
                  rw [hstep]
                  exact dgr_set_frame _ _ _ _ _ hset hnm.1
                | capacityExit =>
                  rw [hset] at hok
                  exact Except.noConfusion hok
                | recordSlotOOB =>
                  rw [hset] at hok
                  exact Except.noConfusion hok
                | nameFieldOOB =>
                  rw [hset] at hok
                  exact Except.noConfusion hok

theorem dgr_findIndex_set (reg : List dgr_record) (i : Nat) (name buf : List Nat)
    (h : dgr_findIndex name reg = some i) :
    dgr_findIndex name (reg.set i ⟨name, buf⟩) = some i := by
  induction reg generalizing i with
  | nil => simp [dgr_findIndex] at h
  | cons r rs ih =>
    simp only [dgr_findIndex] at h
    by_cases hr : r.name = name
    · rw [if_pos hr] at h
      cases h
      rw [List.set_cons_zero]
      simp [dgr_findIndex]
    · rw [if_neg hr] at h
      cases hfi : dgr_findIndex name rs with
      | none => rw [hfi] at h; simp at h
      | some j =>
        rw [hfi] at h
        simp only [Option.map_some', Option.some.injEq] at h
        cases h
        rw [List.set_cons_succ]
        simp only [dgr_findIndex, hr, if_false, ih j hfi, Option.map_some']

/-! The claims. -/

/-- Claim C1: serializing a registry and then deserializing the byte stream into
an empty registry reproduces every record's name, size, and data bytes exactly,
in the same insertion order.  The hypotheses are the registry's data-model
invariants: each name is a C string that fits the 1024-byte name field (nonzero
bytes, at most 1023 of them), each size is a non-negative `int` (below
`2 ^ 31`), names are pairwise distinct, and the record count is within the
1024-record bound. -/
theorem dgr_serialize_roundtrip (reg : List dgr_record)
    (hwf : ∀ r ∈ reg, (∀ b ∈ r.name, b ≠ 0) ∧ r.name.length ≤ 1023 ∧ r.buffer.length < 2 ^ 31)
    (hnodup : (reg.map (fun r => r.name)).Nodup)
    (hcap : reg.length ≤ DGR_MAX_LIST_SIZE) :
    dgr_unserialize (dgr_serialize reg) [] = .ok reg := by
  have h := dgr_unserialize_go_serialize reg [] hwf (by simp) hnodup (by simpa using hcap)
  simpa [dgr_unserialize] using h

/-- Witness for the round trip at a concrete two-record registry. -/
theorem dgr_serialize_roundtrip_witness :
    dgr_unserialize
        (dgr_serialize [⟨[115, 99, 111, 114, 101], [10, 0, 0, 0]⟩, ⟨[120], [1, 2]⟩]) []
      = .ok [⟨[115, 99, 111, 114, 101], [10, 0, 0, 0]⟩, ⟨[120], [1, 2]⟩] :=
  dgr_serialize_roundtrip _ (by decide) (by decide) (by decide)

/-- Claim C2 (code defect): deserialization does not bound a record's 4-byte
size field against the bytes remaining in the input.  On the 6-byte packet
`"A" 0x00` followed by a size field of 100 (with zero data bytes present), the
code `memcpy`s 100 bytes starting past the end of the input buffer instead of
failing with a decoding error; the embedding surfaces exactly that out-of-bounds
read as the `readPastEnd` marker. -/
theorem dgr_unserialize_unbounded_size :
    dgr_unserialize [65, 0, 100, 0, 0, 0] [] = .error .readPastEnd := by
  rw [dgr_unserialize, dgr_unserialize_go]
  rfl

/-- Claim C5 (code defect): with the registry at exactly its maximum count of
1024 records, inserting a fresh name does not fail with the capacity error: the
guard tests `dgr_list_size > DGR_MAX_LIST_SIZE` instead of `>=`, so the code
goes on to write the new record through `&dgr_list[1024]`, one slot past the end
of the 1024-entry array. -/
theorem dgr_set_capacity_off_by_one :
    dgr_set false (List.replicate 1024 ⟨[65], []⟩) [66] [] = .recordSlotOOB := by
  have hfi : dgr_findIndex [66] (List.replicate 1024 ⟨[65], []⟩) = none := by
    apply dgr_findIndex_eq_none
    intro r hr
    rw [List.eq_of_mem_replicate hr]
    decide
  simp only [dgr_set, Bool.false_eq_true, if_false, hfi, List.length_replicate,
    DGR_MAX_LIST_SIZE, lt_self_iff_false]

/-- Claim C10: before `dgr_init` ever runs, the static initializers leave
`dgr_disabled = 0` and `dgr_mode = 0`, so `dgr_is_enabled` reports enabled and
`dgr_is_master` reports slave; in particular the disabled-mode no-op guards of
`dgr_setget`/`dgr_set`/`dgr_get`/`dgr_receive` do not fire on such a session. -/
theorem dgr_defaults_enabled_slave :
    dgr_is_enabled dgr_initial_state = true ∧
    dgr_is_master dgr_initial_state = false ∧
    dgr_initial_state.dgr_disabled = false := by
  decide

/-- Claim C7: on an enabled session, `dgr_get` returns the not-found error with
the caller's buffer untouched when the name is absent; returns the
buffer-too-small error with the buffer untouched when the stored record is
larger than the buffer; and otherwise copies exactly the record's `size` bytes
to the front of the buffer and returns that size.  `dgr_get` performs no write
to the record list (the embedding returns none), so the registry is unchanged in
every case. -/
theorem dgr_get_spec (reg : List dgr_record) (name buf : List Nat) :
    (dgr_findIndex name reg = none → dgr_get false reg name buf = .notFound buf) ∧
    (∀ i r, dgr_findIndex name reg = some i → reg[i]? = some r →
      (buf.length < r.buffer.length → dgr_get false reg name buf = .bufferTooSmall buf) ∧
      (r.buffer.length ≤ buf.length →
        dgr_get false reg name buf = .ok r.size (r.buffer ++ buf.drop r.buffer.length))) := by
  constructor
  · intro h
    simp [dgr_get, h]
  · intro i r hi hr
    constructor
    · intro hlt
      simp [dgr_get, hi, hr, Nat.not_le.mpr hlt]
    · intro hle
      simp [dgr_get, hi, hr, hle, dgr_record.size]

/-- Witness for `dgr_get_spec`: the three outcomes at concrete inputs. -/
theorem dgr_get_spec_witness :
    dgr_get false [⟨[120], [7, 8]⟩] [110] [5] = .notFound [5] ∧
    dgr_get false [⟨[120], [7, 8]⟩] [120] [5] = .bufferTooSmall [5] ∧
    dgr_get false [⟨[120], [7, 8]⟩] [120] [0, 0, 0] = .ok 2 [7, 8, 0] :=
  ⟨(dgr_get_spec [⟨[120], [7, 8]⟩] [110] [5]).1 (by decide),
   ((dgr_get_spec [⟨[120], [7, 8]⟩] [120] [5]).2 0 ⟨[120], [7, 8]⟩
      (by decide) (by decide)).1 (by decide),
   ((dgr_get_spec [⟨[120], [7, 8]⟩] [120] [0, 0, 0]).2 0 ⟨[120], [7, 8]⟩
      (by decide) (by decide)).2 (by decide)⟩

/-- Claim C6: the wire format.  Serialization emits, for every record in
registry order, the name's bytes, one 0x00 terminator, the 4 bytes of the
record's `size` as an `int`, then the `size` data bytes.  In particular the
registry holding only ("score", the 4-byte `int` 10) serializes to exactly those
14 bytes; deserializing them into an empty registry reproduces the record, and
`dgr_get` on it with a 4-byte buffer returns size 4 with the buffer holding the
bytes of the `int` 10. -/
theorem dgr_serialize_format :
    (∀ (r : dgr_record) (rs : List dgr_record),
        dgr_serialize (r :: rs)
          = r.name ++ [0] ++ dgr_int_to_bytes r.size ++ r.buffer ++ dgr_serialize rs) ∧
    dgr_serialize dgr_score_reg
      = [115, 99, 111, 114, 101, 0, 4, 0, 0, 0, 10, 0, 0, 0] ∧
    (dgr_serialize dgr_score_reg).length = 14 ∧
    dgr_unserialize (dgr_serialize dgr_score_reg) [] = .ok dgr_score_reg ∧
    dgr_get false dgr_score_reg [115, 99, 111, 114, 101] [0, 0, 0, 0]
      = .ok 4 [10, 0, 0, 0] := by
  refine ⟨fun r rs => rfl, by decide, by decide, ?_, by decide⟩
  have h := dgr_unserialize_go_serialize dgr_score_reg []
    (by decide) (by simp) (by decide) (by decide)
  simpa [dgr_unserialize] using h

/-- Witness for the format statement of `dgr_serialize_format` at a concrete
record and tail. -/
theorem dgr_serialize_format_witness :
    dgr_serialize [⟨[120], [9, 9]⟩]
      = [120] ++ [0] ++ dgr_int_to_bytes 2 ++ [9, 9] ++ dgr_serialize [] :=
  dgr_serialize_format.1 ⟨[120], [9, 9]⟩ []

/-- Claim C8: overwriting an existing record replaces the stored bytes by
exactly the new bytes — the record list is updated in place at the found index —
and a following `dgr_get` with a buffer of the new length returns exactly the
new bytes with no residue of the previous value. -/
theorem dgr_set_overwrite (reg : List dgr_record) (name buf2 : List Nat) (i : Nat)
    (hfind : dgr_findIndex name reg = some i) :
    dgr_set false reg name buf2 = .ok (reg.set i ⟨name, buf2⟩) ∧
    dgr_get false (reg.set i ⟨name, buf2⟩) name buf2 = .ok buf2.length buf2 := by
  constructor
  · simp only [dgr_set, Bool.false_eq_true, if_false, hfind]
  · obtain ⟨r, hr, hrname⟩ := dgr_findIndex_getElem name reg i hfind
    have hget : (reg.set i ⟨name, buf2⟩)[i]? = some ⟨name, buf2⟩ := by
      rw [List.getElem?_set_self', hr]
      rfl
    simp [dgr_get, dgr_findIndex_set reg i name buf2 hfind, hget]

/-- Witness for `dgr_set_overwrite`: set "x" to 4 bytes, overwrite with 2 bytes,
and get back exactly the 2 new bytes. -/
theorem dgr_set_overwrite_witness :
    dgr_set false [⟨[120], [1, 2, 3, 4]⟩] [120] [9, 9] = .ok [⟨[120], [9, 9]⟩] ∧
    dgr_get false [⟨[120], [9, 9]⟩] [120] [9, 9] = .ok 2 [9, 9] :=
  dgr_set_overwrite [⟨[120], [1, 2, 3, 4]⟩] [120] [9, 9] 0 (by decide)

/-- Claim C9: deserialization merges rather than replaces.  Every parsed
(name, data) pair is applied through `dgr_set` with overwrite semantics (that is
the definition of `dgr_unserialize_go`), and after a successful deserialization
any name that does not occur among the packet's record names resolves to exactly
the same record as before — same name, same size, same data. -/
theorem dgr_unserialize_merge (pkt : List Nat) (reg reg2 : List dgr_record)
    (name' : List Nat)
    (hok : dgr_unserialize pkt reg = .ok reg2)
    (hnm : name' ∉ dgr_packet_names pkt) :
    dgr_lookup name' reg2 = dgr_lookup name' reg :=
  dgr_unserialize_go_frame pkt.length pkt reg reg2 name' (Nat.le_refl _) hok hnm

/-- Witness for `dgr_unserialize_merge`: applying the packet {B: "xy"} to a
registry already holding A = "ab" leaves both records present with A's record
unchanged. -/
theorem dgr_unserialize_merge_witness :
    dgr_unserialize [66, 0, 2, 0, 0, 0, 120, 121] [⟨[65], [97, 98]⟩]
      = .ok [⟨[65], [97, 98]⟩, ⟨[66], [120, 121]⟩] ∧
    dgr_lookup [65] [⟨[65], [97, 98]⟩, ⟨[66], [120, 121]⟩]
      = dgr_lookup [65] [⟨[65], [97, 98]⟩] := by
  have hok : dgr_unserialize [66, 0, 2, 0, 0, 0, 120, 121] [⟨[65], [97, 98]⟩]
      = .ok [⟨[65], [97, 98]⟩, ⟨[66], [120, 121]⟩] := by
    have h := dgr_unserialize_go_serialize [⟨[66], [120, 121]⟩] [⟨[65], [97, 98]⟩]
      (by decide) (by decide) (by decide) (by decide)
    simpa [dgr_unserialize, dgr_serialize, dgr_int_to_bytes] using h
  have hnames := dgr_packet_names_serialize [⟨[66], [120, 121]⟩] (by decide)
  simp [dgr_serialize, dgr_int_to_bytes] at hnames
  have hnm : ([65] : List Nat) ∉ dgr_packet_names [66, 0, 2, 0, 0, 0, 120, 121] := by
    rw [hnames]
    decide
  exact ⟨hok, dgr_unserialize_merge _ _ _ _ hok hnm⟩

/-- Claim C3: the non-blocking drain of an enabled slave (liveness window not
elapsed) keeps only the most recently received packet: with packets queued, the
call behaves exactly as if only the newest packet had been queued, and the state
it produces is the newest packet merged into the current list — older queued
packets are never observably applied.  With an empty queue the call returns the
state unchanged. -/
theorem dgr_receive_drain (st : DgrState) (now : Int) (queue : List (List Nat))
    (pkt : List Nat)
    (hdis : st.dgr_disabled = false)
    (hlive : st.dgr_time_lastreceive = 0 ∨ now - st.dgr_time_lastreceive < 15) :
    (st.dgr_mode = false → st.dgr_time_lastreceive ≠ 0 →
      ∀ q, dgr_update st now q = dgr_receive st 0 now q) ∧
    dgr_receive st 0 now (queue ++ [pkt]) = dgr_receive st 0 now [pkt] ∧
    dgr_receive st 0 now (queue ++ [pkt])
      = (match dgr_unserialize pkt st.dgr_list with
        | .error e => .error e
        | .ok reg2 => .ok { st with dgr_list := reg2, dgr_time_lastreceive := now }) ∧
    dgr_receive st 0 now [] = .ok st := by
  have hcond : ¬ (st.dgr_time_lastreceive ≠ 0 ∧ 15 ≤ now - st.dgr_time_lastreceive) := by
    rcases hlive with h | h
    · exact fun hc => hc.1 h
    · exact fun hc => absurd hc.2 (by omega)
  refine ⟨?_, ?_, ?_, ?_⟩
  · intro hmode hne q
    simp only [dgr_update, hmode, Bool.false_eq_true, if_false, hne]
  · simp only [dgr_receive, hdis, Bool.false_eq_true, if_false, hcond,
      List.getLast?_concat, List.getLast?_singleton]
  · simp only [dgr_receive, hdis, Bool.false_eq_true, if_false, hcond,
      List.getLast?_concat]
  · simp only [dgr_receive, hdis, Bool.false_eq_true, if_false, hcond,
      List.getLast?_nil, lt_self_iff_false]

/-- Witness for `dgr_receive_drain` on the spec's three-packet burst: P1 and P2
are discarded, only P3 is applied; an empty drain leaves the state unchanged. -/
theorem dgr_receive_drain_witness :
    dgr_update ⟨[], 5, false, false⟩ 10
        [[65, 0, 1, 0, 0, 0, 1], [65, 0, 1, 0, 0, 0, 2], [65, 0, 1, 0, 0, 0, 3]]
      = dgr_receive ⟨[], 5, false, false⟩ 0 10
        [[65, 0, 1, 0, 0, 0, 1], [65, 0, 1, 0, 0, 0, 2], [65, 0, 1, 0, 0, 0, 3]] ∧
    dgr_receive ⟨[], 5, false, false⟩ 0 10
        [[65, 0, 1, 0, 0, 0, 1], [65, 0, 1, 0, 0, 0, 2], [65, 0, 1, 0, 0, 0, 3]]
      = dgr_receive ⟨[], 5, false, false⟩ 0 10 [[65, 0, 1, 0, 0, 0, 3]] ∧
    dgr_receive ⟨[], 5, false, false⟩ 0 10
        [[65, 0, 1, 0, 0, 0, 1], [65, 0, 1, 0, 0, 0, 2], [65, 0, 1, 0, 0, 0, 3]]
      = (match dgr_unserialize [65, 0, 1, 0, 0, 0, 3]
            (DgrState.dgr_list ⟨[], 5, false, false⟩) with
        | .error e => .error e
        | .ok reg2 => .ok { (⟨[], 5, false, false⟩ : DgrState) with
            dgr_list := reg2, dgr_time_lastreceive := 10 }) ∧
    dgr_receive ⟨[], 5, false, false⟩ 0 10 [] = .ok ⟨[], 5, false, false⟩ :=
  have h := dgr_receive_drain ⟨[], 5, false, false⟩ 10
    [[65, 0, 1, 0, 0, 0, 1], [65, 0, 1, 0, 0, 0, 2]] [65, 0, 1, 0, 0, 0, 3]
    rfl (Or.inr (by decide))
  ⟨h.1 rfl (by decide)
      [[65, 0, 1, 0, 0, 0, 1], [65, 0, 1, 0, 0, 0, 2], [65, 0, 1, 0, 0, 0, 3]],
   h.2.1, h.2.2.1, h.2.2.2⟩

/-- Claim C4: slave liveness.  A slave that has received a packet before
(`dgr_time_lastreceive ≠ 0`) and is updated once at least the 15-second liveness
window has passed since then fails with the fatal liveness exit whatever is
queued — the check runs before any read.  A slave that has never received a
packet (`dgr_time_lastreceive = 0`) and finds nothing during the 10000 ms grace
wait of its first update exits fatally on the timeout. -/
theorem dgr_update_liveness (st : DgrState) (now : Int)
    (hdis : st.dgr_disabled = false) (hmode : st.dgr_mode = false) :
    (st.dgr_time_lastreceive ≠ 0 → 15 ≤ now - st.dgr_time_lastreceive →
      ∀ queue, dgr_update st now queue = .error .livenessExit) ∧
    (st.dgr_time_lastreceive = 0 → dgr_update st now [] = .error .timeoutExit) := by
  constructor
  · intro hne hge queue
    simp only [dgr_update, hmode, Bool.false_eq_true, if_false, hne,
      dgr_receive, hdis, ne_eq, hge, not_false_eq_true, and_true, true_and,
      if_true]
  · intro h0
    simp only [dgr_update, hmode, Bool.false_eq_true, if_false, h0, if_true,
      dgr_receive, hdis, ne_eq, not_true_eq_false, false_and, List.getLast?_nil]
    norm_num

/-- Witness for `dgr_update_liveness`: a slave last served at time 100 fails the
liveness check at time 115 even with a packet queued; a slave that never
received anything and drains nothing on its first update times out fatally. -/
theorem dgr_update_liveness_witness :
    dgr_update ⟨[], 100, false, false⟩ 115 [[65, 0, 1, 0, 0, 0, 7]]
      = .error .livenessExit ∧
    dgr_update ⟨[], 0, false, false⟩ 115 [] = .error .timeoutExit :=
  ⟨(dgr_update_liveness ⟨[], 100, false, false⟩ 115 rfl rfl).1
      (by decide) (by decide) [[65, 0, 1, 0, 0, 0, 7]],
   (dgr_update_liveness ⟨[], 0, false, false⟩ 115 rfl rfl).2 rfl⟩
